import Mathlib

/-!
Verification development for the TaskBOT repository's task-ingestion core
(`src/utils/generate_tasks.py` and `src/utils/insert_tasks_to_db.py`).

The Python code is shallowly embedded:
* Python strings are `List Char`; `str.strip`, `str.find`, `str.rfind`,
  slicing and `startswith`/`endswith` are embedded with Python semantics.
* A task dict is embedded as `Task`: each relevant key is an `Option` field
  where `none` means "key absent" and `some none` means "key present with
  value null" (Python `None`).
* The PostgreSQL connection of `insert_tasks_to_db_direct` is embedded as an
  explicit `DB` state with a pending (uncommitted) row list, commit/rollback,
  store-assigned sequential ids, and an injected fault `failAt` modelling a
  constraint violation or connection error at a chosen insert statement.
* The external calls (`client.models.generate_content` and `json.loads`) are
  inputs: the completion text is an `Option (List Char)` argument (`none`
  models a response with no extractable text) and the JSON parser is a
  function argument `parse`; `datetime.now` is the `today : Nat` argument
  (days since a Monday epoch, so `weekday() = today % 7` with Monday = 0) and
  `strftime "%Y-%m-%d"` is the `fmt : Nat → String` argument.
-/

namespace TaskBot

/-! ## Python string primitives (embedded over `List Char`) -/

/-- ASCII whitespace recognised by Python `str.strip()` (the model restricts
Python's unicode whitespace to the ASCII range, which covers every string the
program manipulates). -/
def pyIsSpace (c : Char) : Bool :=
  c = ' ' || c = '\t' || c = '\n' || c = '\r' || c = '\x0b' || c = '\x0c'

/-- Python `s.strip()`: drop leading and trailing whitespace. -/
def pyStrip (s : List Char) : List Char :=
  ((s.dropWhile pyIsSpace).reverse.dropWhile pyIsSpace).reverse

/-- First index at which `sub` occurs in `s`, if any. -/
def pyFindAux (sub : List Char) : List Char → Option Nat
  | [] => if sub.isEmpty then some 0 else none
  | c :: tl => if sub.isPrefixOf (c :: tl) then some 0 else (pyFindAux sub tl).map (· + 1)

/-- Python `s.find(sub)`: first index of `sub` in `s`, `-1` when absent. -/
def pyFind (sub s : List Char) : Int :=
  match pyFindAux sub s with
  | some i => (i : Int)
  | none => -1

/-- Last index at which `sub` occurs in `s`, if any. -/
def pyRfindAux (sub : List Char) : List Char → Option Nat
  | [] => if sub.isEmpty then some 0 else none
  | c :: tl =>
    match pyRfindAux sub tl with
    | some i => some (i + 1)
    | none => if sub.isPrefixOf (c :: tl) then some 0 else none

/-- Python `s.rfind(sub)`: last index of `sub` in `s`, `-1` when absent. -/
def pyRfind (sub s : List Char) : Int :=
  match pyRfindAux sub s with
  | some i => (i : Int)
  | none => -1

/-- Clamp a Python slice bound (possibly negative, meaning "from the end")
into `[0, len]`. -/
def pySliceBound (len : Nat) (i : Int) : Nat :=
  if i < 0 then ((len : Int) + i).toNat else min i.toNat len

/-- Python `s[a:b]` with Python's clamping/negative-index semantics. -/
def pySlice (s : List Char) (a b : Int) : List Char :=
  (s.take (pySliceBound s.length b)).drop (pySliceBound s.length a)

/-- The three-backtick fence marker. -/
def fenceMarker : List Char := "```".toList

/-- The fence marker with the `json` language tag. -/
def fenceMarkerJson : List Char := "```json".toList

/-- The branch structure of the markdown-fence cleanup, applied to the
already-stripped completion text (`generate_tasks`,
src/utils/generate_tasks.py lines 153-160): if the text starts and ends with
three backticks, keep what lies between the first newline and the last
occurrence of the closing marker and strip again; otherwise, if it starts
with a fence carrying the `json` tag, drop the seven marker characters up to
the last closing marker. -/
def cleanStripped (t : List Char) : List Char :=
  if fenceMarker.isPrefixOf t && fenceMarker.isSuffixOf t then
    pyStrip (pySlice t (pyFind ['\n'] t + 1) (pyRfind fenceMarker t))
  else if fenceMarkerJson.isPrefixOf t then
    pyStrip (pySlice t 7 (pyRfind fenceMarker t))
  else t

/-- The full cleanup of the AI completion before `json.loads`
(src/utils/generate_tasks.py lines 152-160): `json_text = json_text.strip()`
followed by the fence branches. -/
def cleanJsonText (s : List Char) : List Char :=
  cleanStripped (pyStrip s)

/-! ## The task dictionary model -/

/-- A task dict as manipulated by `process_task` and `insert_task`.  Every
field the code reads or writes is present; `none` is "key absent", `some none`
is "key present, bound to Python `None`".  The `subtasks` key additionally
distinguishes a present-but-not-a-list value (`some none`) from a present list
(`some (some l)`), mirroring the `isinstance(task["subtasks"], list)` guards. -/
inductive Task : Type where
  | mk
      (title : Option (Option String))
      (description : Option (Option String))
      (deadline : Option (Option String))
      (priority : Option (Option String))
      (source_meeting_id : Option (Option Int))
      (portfolio_id : Option (Option Int))
      (subtasks : Option (Option (List Task))) : Task

/-- The `title` entry of the dict. -/
def Task.title : Task → Option (Option String)
  | .mk t _ _ _ _ _ _ => t

/-- The `description` entry of the dict. -/
def Task.description : Task → Option (Option String)
  | .mk _ d _ _ _ _ _ => d

/-- The `deadline` entry of the dict. -/
def Task.deadline : Task → Option (Option String)
  | .mk _ _ dl _ _ _ _ => dl

/-- The `priority` entry of the dict. -/
def Task.priority : Task → Option (Option String)
  | .mk _ _ _ pr _ _ _ => pr

/-- The `source_meeting_id` entry of the dict. -/
def Task.source_meeting_id : Task → Option (Option Int)
  | .mk _ _ _ _ sm _ _ => sm

/-- The `portfolio_id` entry of the dict. -/
def Task.portfolio_id : Task → Option (Option Int)
  | .mk _ _ _ _ _ po _ => po

/-- The `subtasks` entry of the dict. -/
def Task.subtasks : Task → Option (Option (List Task))
  | .mk _ _ _ _ _ _ sub => sub

mutual

/-- Number of nodes of a task's subtree (the node itself plus, when the
`subtasks` key holds a list, all nodes below it). -/
def taskSize : Task → Nat
  | .mk _ _ _ _ _ _ sub =>
    match sub with
    | some (some l) => 1 + forestSize l
    | _ => 1

/-- Number of nodes of a forest. -/
def forestSize : List Task → Nat
  | [] => 0
  | t :: ts => taskSize t + forestSize ts

end

/-! ## The normalizer (`process_task` and the top-level loop of
`generate_tasks`, src/utils/generate_tasks.py lines 170-204) -/

/-- The `(4 - today.weekday()) % 7` computation of `process_task` (line 183),
with Python's nonnegative `%` on ints; `today` counts days since a Monday
epoch so that `today.weekday() = today % 7`. -/
def daysUntilFriday (today : Nat) : Nat :=
  (((4 : Int) - ((today % 7 : Nat) : Int)) % 7).toNat

mutual

/-- One node of `process_task` (src/utils/generate_tasks.py lines 171-193):
set `source_meeting_id`; set `portfolio_id` only when the argument is truthy
(not `None` and not `0`); `setdefault` the `deadline` and `priority` keys;
resolve a `deadline` equal to the literal "This week" to the upcoming Friday
formatted by `fmt`; recurse into `subtasks` when that key holds a list. -/
def processTask (mid : Int) (pid : Option Int) (today : Nat) (fmt : Nat → String) : Task → Task
  | .mk ttl dsc dl pr _ po sub =>
    let po1 : Option (Option Int) :=
      match pid with
      | some v => if v ≠ 0 then some (some v) else po
      | none => po
    let dl1 : Option (Option String) :=
      match dl with
      | none => some none
      | some v => some v
    let pr1 : Option (Option String) :=
      match pr with
      | none => some (some "Medium")
      | some v => some v
    let dl2 : Option (Option String) :=
      if dl1 = some (some "This week") then some (some (fmt (today + daysUntilFriday today)))
      else dl1
    let sub1 : Option (Option (List Task)) :=
      match sub with
      | some (some l) => some (some (processForest mid pid today fmt l))
      | x => x
    .mk ttl dsc dl2 pr1 (some (some mid)) po1 sub1

/-- `process_task` applied to each entry of a `subtasks` list (the
`for subtask in task["subtasks"]` loop, lines 189-191). -/
def processForest (mid : Int) (pid : Option Int) (today : Nat) (fmt : Nat → String) :
    List Task → List Task
  | [] => []
  | t :: ts => processTask mid pid today fmt t :: processForest mid pid today fmt ts

end

/-- The per-element guard of the top-level loop of `generate_tasks`
(line 196): `isinstance(task, dict) and "title" in task and "description" in
task` — key presence only. -/
def hasTitleAndDescription (t : Task) : Bool :=
  t.title.isSome && t.description.isSome

/-- The top-level loop of `generate_tasks` (lines 194-204): keep and process
the tasks that pass the guard, skip the others. -/
def processTopLevel (mid : Int) (pid : Option Int) (today : Nat) (fmt : Nat → String) :
    List Task → List Task
  | [] => []
  | t :: ts =>
    if hasTitleAndDescription t then
      processTask mid pid today fmt t :: processTopLevel mid pid today fmt ts
    else processTopLevel mid pid today fmt ts

/-- Outcome of `json.loads` on the cleaned completion: decode error (`none`),
a top-level value that is not a list (`nonList`), or a list of task dicts. -/
inductive ParseResult : Type where
  | list (tasks : List Task) : ParseResult
  | nonList : ParseResult

/-- The parsing/normalizing tail of `generate_tasks`
(src/utils/generate_tasks.py lines 118-206), starting from the AI completion:
`completion = none` models a response with no candidates or no extractable
text (lines 118-145, which `return []`); otherwise the text is fence-cleaned,
handed to `json.loads` (the `parse` argument; `none` models
`json.JSONDecodeError`), a non-list top-level value yields `[]` (lines
161-164), and a list is filtered and normalized by the top-level loop. -/
def generate_tasks (parse : List Char → Option ParseResult) (completion : Option (List Char))
    (mid : Int) (pid : Option Int) (today : Nat) (fmt : Nat → String) : List Task :=
  match completion with
  | none => []
  | some text =>
    match parse (cleanJsonText text) with
    | none => []
    | some .nonList => []
    | some (.list tasks) => processTopLevel mid pid today fmt tasks

/-! ## The persister (`insert_tasks_to_db_direct`,
src/utils/insert_tasks_to_db.py lines 74-135) -/

/-- A row of the `tasks` table as inserted by the SQL statement of
`insert_task` (lines 96-101), with the store-assigned `task_id`. -/
structure Row where
  task_id : Nat
  title : Option String
  description : Option String
  deadline : Option String
  priority : Option String
  source_meeting_id : Option Int
  portfolio_id : Option Int
  parent_task_id : Option Nat
deriving DecidableEq, Repr

/-- The transactional database handle: rows already committed, rows pending
in the open transaction, the next id the store will assign, the number of
insert statements executed on this connection, and an injected fault —
`failAt = some k` makes the `k`-th insert statement raise (a constraint
violation or connection error). -/
structure DB where
  committed : List Row
  pending : List Row
  nextId : Nat
  inserts : Nat
  failAt : Option Nat
deriving DecidableEq, Repr

/-- One `cursor.execute(INSERT ... RETURNING task_id)` + `fetchone()`: either
raises (the injected fault) or appends the row to the open transaction and
returns the store-assigned id. -/
def dbInsert (title description deadline priority : Option String)
    (source_meeting_id portfolio_id : Option Int) (parent_task_id : Option Nat)
    (db : DB) : Except DB (Nat × DB) :=
  if db.failAt = some db.inserts then .error db
  else
    .ok (db.nextId,
      { db with
        pending := db.pending ++
          [⟨db.nextId, title, description, deadline, priority, source_meeting_id,
            portfolio_id, parent_task_id⟩],
        nextId := db.nextId + 1,
        inserts := db.inserts + 1 })

/-- `connection.commit()`: the pending rows of the transaction become
durable. -/
def dbCommit (db : DB) : DB :=
  { db with committed := db.committed ++ db.pending, pending := [] }

/-- `connection.rollback()`: the pending rows of the transaction are
discarded. -/
def dbRollback (db : DB) : DB :=
  { db with pending := [] }

mutual

/-- The inner `insert_task(task, parent_task_id=None)` of
`insert_tasks_to_db_direct` (src/utils/insert_tasks_to_db.py lines 88-117):
`task["title"]` and `task["description"]` raise `KeyError` when the key is
absent (modelled as `.error`); the optional fields are read with `.get`
(`Option.join` collapses "absent" and "null" to SQL `NULL`, and a missing
`priority` key defaults to `"Medium"`); the row is inserted, the returned id
is taken, and the subtasks — when that key holds a list — are inserted
recursively under the new id. -/
def insert_task (t : Task) (parent_task_id : Option Nat) (db : DB) : Except DB (Nat × DB) :=
  match t with
  | .mk ttl dsc dl pr sm po sub =>
    match ttl with
    | none => .error db
    | some title =>
      match dsc with
      | none => .error db
      | some description =>
        match dbInsert title description dl.join
            (match pr with | none => some "Medium" | some v => v) sm.join po.join
            parent_task_id db with
        | .error e => .error e
        | .ok (task_id, db1) =>
          match sub with
          | some (some l) =>
            match insert_subtasks l task_id db1 with
            | .error e => .error e
            | .ok db2 => .ok (task_id, db2)
          | _ => .ok (task_id, db1)

/-- The `for subtask in task["subtasks"]: insert_task(subtask, task_id)` loop
(lines 113-115). -/
def insert_subtasks (ts : List Task) (parent : Nat) (db : DB) : Except DB DB :=
  match ts with
  | [] => .ok db
  | t :: rest =>
    match insert_task t (some parent) db with
    | .error e => .error e
    | .ok (_, db1) => insert_subtasks rest parent db1

end

/-- The `for task in tasks: insert_task(task)` loop over the top-level tasks
(lines 119-121), collecting `top_level_task_ids` in order (only calls with
`parent_task_id=None` append to that list, line 106-107). -/
def insertRootTasks (ts : List Task) (db : DB) : Except DB (List Nat × DB) :=
  match ts with
  | [] => .ok ([], db)
  | t :: rest =>
    match insert_task t none db with
    | .error e => .error e
    | .ok (i, db1) =>
      match insertRootTasks rest db1 with
      | .error e => .error e
      | .ok (ids, db2) => .ok (i :: ids, db2)

/-- `insert_tasks_to_db_direct(tasks, connection)`
(src/utils/insert_tasks_to_db.py lines 74-135): walk the forest; on success
commit and return the top-level ids; on any exception roll the transaction
back and return `[]`. -/
def insert_tasks_to_db_direct (tasks : List Task) (db : DB) : List Nat × DB :=
  match insertRootTasks tasks db with
  | .ok (ids, db1) => (ids, dbCommit db1)
  | .error e => ([], dbRollback e)

/-! ## Pure specification of the persisted rows -/

mutual

/-- The rows a successful `insert_task` produces for the subtree of `t`, in
insertion order: the node's own row first (with the store-assigned id `n` and
the caller-supplied parent), then the rows of its subtasks in depth-first
pre-order, each child carrying `parent_task_id = some n`. -/
def flattenTask (n : Nat) (parent : Option Nat) : Task → List Row
  | .mk ttl dsc dl pr sm po sub =>
    ⟨n, ttl.join, dsc.join, dl.join,
      (match pr with | none => some "Medium" | some v => v), sm.join, po.join, parent⟩ ::
    (match sub with
     | some (some l) => flattenForest (n + 1) n l
     | _ => [])

/-- The rows of a list of sibling subtrees whose parent was assigned id
`parent`, ids allocated sequentially in pre-order starting at `n`. -/
def flattenForest (n : Nat) (parent : Nat) : List Task → List Row
  | [] => []
  | t :: ts => flattenTask n (some parent) t ++ flattenForest (n + taskSize t) parent ts

end

/-- The rows of a whole forest of top-level tasks (parent `NULL`), ids
allocated sequentially in pre-order starting at `n`. -/
def flattenRoots (n : Nat) : List Task → List Row
  | [] => []
  | t :: ts => flattenTask n none t ++ flattenRoots (n + taskSize t) ts

/-- The ids the store assigns to the top-level tasks when ids are allocated
sequentially in pre-order starting at `n`. -/
def rootIds (n : Nat) : List Task → List Nat
  | [] => []
  | t :: ts => n :: rootIds (n + taskSize t) ts

/-- The foreign-key ordering discipline: scanning the row list left to right,
every row whose `parent_task_id` is non-null references either an id in
`seen` or the `task_id` of an earlier row of the list. -/
def parentsBefore (seen : List Nat) : List Row → Bool
  | [] => true
  | r :: rest =>
    (match r.parent_task_id with
     | none => true
     | some p => seen.contains p) && parentsBefore (r.task_id :: seen) rest

/-- The ids contributed to `seen` after scanning `rows` (newest first). -/
def seenAfter (seen : List Nat) : List Row → List Nat
  | [] => seen
  | r :: rest => seenAfter (r.task_id :: seen) rest

/-! ## `process_meeting_transcript` (src/utils/generate_tasks.py
lines 233-299) -/

/-- `process_meeting_transcript(script, meeting_id, portfolio_id)`: generate
the tasks; when none were generated return `[]` without touching the database
(lines 253-255); otherwise open a session and run
`insert_tasks_to_db_direct`. -/
def process_meeting_transcript (parse : List Char → Option ParseResult)
    (completion : Option (List Char)) (mid : Int) (pid : Option Int) (today : Nat)
    (fmt : Nat → String) (db : DB) : List Nat × DB :=
  let tasks := generate_tasks parse completion mid pid today fmt
  if tasks.isEmpty then ([], db)
  else insert_tasks_to_db_direct tasks db

/-! ## Heap model of `process_task` for the in-place-mutation claim

`process_task` is embedded a second time, over an explicit object store, to
talk about which dict objects the call mutates: a dict lives at an index of
the store and `subtasks` holds references.  Recursion carries fuel because a
reference graph, unlike the pure `Task` tree, could be cyclic. -/

/-- A task dict object in the store; same key conventions as `Task`, with
`subtasks` holding store references. -/
structure TaskObj where
  title : Option (Option String)
  description : Option (Option String)
  deadline : Option (Option String)
  priority : Option (Option String)
  source_meeting_id : Option (Option Int)
  portfolio_id : Option (Option Int)
  subtasks : Option (Option (List Nat))
deriving DecidableEq, Repr

/-- The object store: a dict object per index. -/
abbrev Store := List TaskObj

/-- The references held by the `subtasks` list of the object at `r` (empty
when the object, the key, or the list shape is missing). -/
def childRefs (st : Store) (r : Nat) : List Nat :=
  match st.get? r with
  | some o =>
    match o.subtasks with
    | some (some rs) => rs
    | _ => []
  | none => []

/-- The field updates `process_task` performs on one dict object
(src/utils/generate_tasks.py lines 172-186): set `source_meeting_id`, set
`portfolio_id` when the argument is truthy, `setdefault` `deadline` and
`priority`, resolve a "This week" deadline. -/
def processObjFields (mid : Int) (pid : Option Int) (today : Nat) (fmt : Nat → String)
    (o : TaskObj) : TaskObj :=
  let o1 := { o with source_meeting_id := some (some mid) }
  let o2 := match pid with
    | some v => if v ≠ 0 then { o1 with portfolio_id := some (some v) } else o1
    | none => o1
  let o3 := { o2 with deadline := match o2.deadline with | none => some none | some v => some v }
  let o4 := { o3 with
    priority := match o3.priority with | none => some (some "Medium") | some v => some v }
  if o4.deadline = some (some "This week") then
    { o4 with deadline := some (some (fmt (today + daysUntilFriday today))) }
  else o4

/-- `process_task` over the store: the statements of
src/utils/generate_tasks.py lines 171-193 executed on the dict object at `r`
— each `task[...] = ...` / `setdefault` updates the object in place — then
the recursion over the `subtasks` references. -/
def processTaskHeap (mid : Int) (pid : Option Int) (today : Nat) (fmt : Nat → String)
    (fuel : Nat) (r : Nat) (st : Store) : Store :=
  match fuel with
  | 0 => st
  | fuel + 1 =>
    match st.get? r with
    | none => st
    | some o =>
      let st1 := st.set r (processObjFields mid pid today fmt o)
      match (processObjFields mid pid today fmt o).subtasks with
      | some (some rs) => rs.foldl (fun acc r2 => processTaskHeap mid pid today fmt fuel r2 acc) st1
      | _ => st1

/-- The references reachable from `r` through `subtasks` lists within `fuel`
steps: the objects `process_task` visits. -/
def reachHeap (fuel : Nat) (r : Nat) (st : Store) : List Nat :=
  match fuel with
  | 0 => []
  | fuel + 1 => r :: (childRefs st r).flatMap (fun r2 => reachHeap fuel r2 st)

/-! ## Node-wise predicates used to state normalizer guarantees -/

mutual

/-- Every node of the subtree (through list-shaped `subtasks`) carries a
`priority` key. -/
def allNodesPrioritySet : Task → Bool
  | .mk _ _ _ pr _ _ sub =>
    pr.isSome &&
    (match sub with
     | some (some l) => allForestPrioritySet l
     | _ => true)

/-- Every node of the forest carries a `priority` key. -/
def allForestPrioritySet : List Task → Bool
  | [] => true
  | t :: ts => allNodesPrioritySet t && allForestPrioritySet ts

end

mutual

/-- No node of the subtree (through list-shaped `subtasks`) carries a
`portfolio_id` key. -/
def allNodesNoPortfolioKey : Task → Bool
  | .mk _ _ _ _ _ po sub =>
    po.isNone &&
    (match sub with
     | some (some l) => allForestNoPortfolioKey l
     | _ => true)

/-- No node of the forest carries a `portfolio_id` key. -/
def allForestNoPortfolioKey : List Task → Bool
  | [] => true
  | t :: ts => allNodesNoPortfolioKey t && allForestNoPortfolioKey ts

end

/-! ## Induction principle for the nested `Task` tree -/

/-- Joint strong induction over a task and a forest: to prove `P` of every
task and `Q` of every forest it suffices to handle a node given `Q` of its
subtask list (when that key holds a list), the empty forest, and consing. -/
theorem taskStrongInd (P : Task → Prop) (Q : List Task → Prop)
    (h1 : ∀ ttl dsc dl pr sm po sub,
      (∀ l, sub = some (some l) → Q l) → P (.mk ttl dsc dl pr sm po sub))
    (h2 : Q [])
    (h3 : ∀ t ts, P t → Q ts → Q (t :: ts)) :
    (∀ t, P t) ∧ (∀ l, Q l) := by
  have key : ∀ n, (∀ t : Task, sizeOf t ≤ n → P t) ∧ (∀ l : List Task, sizeOf l ≤ n → Q l) := by
    intro n
    induction n with
    | zero =>
      refine ⟨fun t h => ?_, fun l h => ?_⟩
      · cases t with
        | mk a b c d e f g => simp at h
      · cases l with
        | nil => exact h2
        | cons x xs => simp at h
    | succ n ih =>
      refine ⟨fun t h => ?_, fun l h => ?_⟩
      · cases t with
        | mk a b c d e f g =>
          refine h1 a b c d e f g (fun l hl => ?_)
          subst hl
          refine ih.2 l ?_
          simp at h
          omega
      · cases l with
        | nil => exact h2
        | cons x xs =>
          simp at h
          exact h3 x xs (ih.1 x (by omega)) (ih.2 xs (by omega))
  exact ⟨fun t => (key (sizeOf t)).1 t le_rfl, fun l => (key (sizeOf l)).2 l le_rfl⟩

/-! ## What a successful or failed insert does to the database -/

/-- Specification of one `insert_task` call and of one `insert_subtasks`
loop: on success the returned id is the next store id, the pending list grows
by exactly the pre-order `flatten` rows of the subtree, and the id/statement
counters advance by the subtree size; on failure the committed rows are
untouched. -/
theorem insert_task_spec :
    (∀ t : Task, ∀ parent db,
      (∀ i db2, insert_task t parent db = .ok (i, db2) →
        i = db.nextId ∧
        db2 = { db with
                pending := db.pending ++ flattenTask db.nextId parent t,
                nextId := db.nextId + taskSize t,
                inserts := db.inserts + taskSize t }) ∧
      (∀ e, insert_task t parent db = .error e → e.committed = db.committed)) ∧
    (∀ l : List Task, ∀ (parent : Nat) (db : DB),
      (∀ db2, insert_subtasks l parent db = .ok db2 →
        db2 = { db with
                pending := db.pending ++ flattenForest db.nextId parent l,
                nextId := db.nextId + forestSize l,
                inserts := db.inserts + forestSize l }) ∧
      (∀ e, insert_subtasks l parent db = .error e → e.committed = db.committed)) := by
  refine taskStrongInd _ _ ?_ ?_ ?_
  · intro ttl dsc dl pr sm po sub ihsub parent db
    cases ttl with
    | none => simp [insert_task]
    | some title =>
      cases dsc with
      | none => simp [insert_task]
      | some description =>
        by_cases hfail : db.failAt = some db.inserts
        · constructor
          · intro i db2 h
            unfold insert_task dbInsert at h
            dsimp only at h
            rw [if_pos hfail] at h
            dsimp only at h
            exact absurd h (by simp)
          · intro e h
            unfold insert_task dbInsert at h
            dsimp only at h
            rw [if_pos hfail] at h
            dsimp only at h
            simp only [Except.error.injEq] at h
            rw [← h]
        · cases sub with
          | none =>
            constructor
            · intro i db2 h
              unfold insert_task dbInsert at h
              dsimp only at h
              rw [if_neg hfail] at h
              dsimp only at h
              simp only [Except.ok.injEq, Prod.mk.injEq] at h
              obtain ⟨h1, h2⟩ := h
              refine ⟨h1.symm, ?_⟩
              rw [← h2]
              simp [flattenTask, taskSize]
            · intro e h
              unfold insert_task dbInsert at h
              dsimp only at h
              rw [if_neg hfail] at h
              dsimp only at h
              exact absurd h (by simp)
          | some osub =>
            cases osub with
            | none =>
              constructor
              · intro i db2 h
                unfold insert_task dbInsert at h
                dsimp only at h
                rw [if_neg hfail] at h
                dsimp only at h
                simp only [Except.ok.injEq, Prod.mk.injEq] at h
                obtain ⟨h1, h2⟩ := h
                refine ⟨h1.symm, ?_⟩
                rw [← h2]
                simp [flattenTask, taskSize]
              · intro e h
                unfold insert_task dbInsert at h
                dsimp only at h
                rw [if_neg hfail] at h
                dsimp only at h
                exact absurd h (by simp)
            | some l =>
              constructor
              · intro i db2 h
                unfold insert_task dbInsert at h
                dsimp only at h
                rw [if_neg hfail] at h
                dsimp only at h
                split at h
                · exact absurd h (by simp)
                · rename_i dbs hsub
                  simp only [Except.ok.injEq, Prod.mk.injEq] at h
                  obtain ⟨h1, h2⟩ := h
                  refine ⟨h1.symm, ?_⟩
                  have hspec := ((ihsub l rfl db.nextId _).1 dbs hsub)
                  rw [← h2, hspec]
                  simp [flattenTask, taskSize, forestSize, List.append_assoc]; omega
              · intro e h
                unfold insert_task dbInsert at h
                dsimp only at h
                rw [if_neg hfail] at h
                dsimp only at h
                split at h
                · rename_i e2 hsub
                  simp only [Except.error.injEq] at h
                  have := ((ihsub l rfl db.nextId _).2 e2 hsub)
                  rw [← h]
                  exact this
                · exact absurd h (by simp)
  · intro parent db
    constructor
    · intro db2 h
      unfold insert_subtasks at h
      simp only [Except.ok.injEq] at h
      rw [← h]
      simp [flattenForest, forestSize]
    · intro e h
      unfold insert_subtasks at h
      exact absurd h (by simp)
  · intro t ts iht ihts parent db
    constructor
    · intro db2 h
      unfold insert_subtasks at h
      cases hone : insert_task t (some parent) db with
      | error e =>
        rw [hone] at h
        exact absurd h (by simp)
      | ok p =>
        obtain ⟨i1, db1⟩ := p
        rw [hone] at h
        dsimp only at h
        have hspec1 := (iht (some parent) db).1 i1 db1 hone
        obtain ⟨hi1, hdb1⟩ := hspec1
        have hspec2 := (ihts parent db1).1 db2 h
        rw [hspec2, hdb1]
        simp [flattenForest, forestSize, List.append_assoc]; omega
    · intro e h
      unfold insert_subtasks at h
      cases hone : insert_task t (some parent) db with
      | error e2 =>
        rw [hone] at h
        simp only [Except.error.injEq] at h
        rw [← h]
        exact (iht (some parent) db).2 e2 hone
      | ok p =>
        obtain ⟨i1, db1⟩ := p
        rw [hone] at h
        dsimp only at h
        have hdb1 := ((iht (some parent) db).1 i1 db1 hone).2
        have := (ihts parent db1).2 e h
        rw [this, hdb1]


/-- Specification of the loop over top-level tasks: on success it returns the
pre-order root ids and appends the pre-order rows of the whole forest to the
transaction. -/
theorem insertRootTasks_ok_spec (ts : List Task) (db : DB) (ids : List Nat) (db1 : DB)
    (h : insertRootTasks ts db = .ok (ids, db1)) :
    ids = rootIds db.nextId ts ∧
    db1 = { db with
            pending := db.pending ++ flattenRoots db.nextId ts,
            nextId := db.nextId + forestSize ts,
            inserts := db.inserts + forestSize ts } := by
  induction ts generalizing db ids db1 with
  | nil =>
    unfold insertRootTasks at h
    simp only [Except.ok.injEq, Prod.mk.injEq] at h
    obtain ⟨h1, h2⟩ := h
    rw [← h1, ← h2]
    simp [rootIds, flattenRoots, forestSize]
  | cons t ts ih =>
    unfold insertRootTasks at h
    split at h
    · exact absurd h (by simp)
    · rename_i i1 dbt hone
      split at h
      · exact absurd h (by simp)
      · rename_i ids2 db2 hrest
        simp only [Except.ok.injEq, Prod.mk.injEq] at h
        obtain ⟨hids, hdb⟩ := h
        have h1 := (insert_task_spec.1 t none db).1 i1 dbt hone
        obtain ⟨hi1, hdbt⟩ := h1
        have h2 := ih dbt ids2 db2 hrest
        obtain ⟨hids2, hdb2⟩ := h2
        subst hdbt
        constructor
        · rw [← hids, hi1, hids2]
          simp [rootIds]
        · rw [← hdb, hdb2]
          simp [flattenRoots, forestSize, List.append_assoc]; omega

/-- On failure, neither the walk nor the raised exception ever touches the
committed rows. -/
theorem insertRootTasks_error_spec (ts : List Task) (db : DB) (e : DB)
    (h : insertRootTasks ts db = .error e) : e.committed = db.committed := by
  induction ts generalizing db with
  | nil =>
    unfold insertRootTasks at h
    exact absurd h (by simp)
  | cons t ts ih =>
    unfold insertRootTasks at h
    split at h
    · rename_i e2 hone
      simp only [Except.error.injEq] at h
      rw [← h]
      exact (insert_task_spec.1 t none db).2 e2 hone
    · rename_i i1 dbt hone
      split at h
      · rename_i e2 hrest
        simp only [Except.error.injEq] at h
        subst h
        have := ih dbt hrest
        rw [this, ((insert_task_spec.1 t none db).1 i1 dbt hone).2]
      · exact absurd h (by simp)

/-- Every node of a subtree contributes exactly one row to its pre-order
flattening. -/
theorem flatten_length :
    (∀ t : Task, ∀ n parent, (flattenTask n parent t).length = taskSize t) ∧
    (∀ l : List Task, ∀ n parent, (flattenForest n parent l).length = forestSize l) := by
  refine taskStrongInd _ _ ?_ ?_ ?_
  · intro ttl dsc dl pr sm po sub ihsub n parent
    cases sub with
    | none => simp [flattenTask, taskSize]
    | some osub =>
      cases osub with
      | none => simp [flattenTask, taskSize]
      | some l => simp [flattenTask, taskSize, ihsub l rfl]; omega
  · intro n parent
    simp [flattenForest, forestSize]
  · intro t ts iht ihts n parent
    simp [flattenForest, forestSize, iht, ihts]

/-- The pre-order flattening of a whole forest has one row per node. -/
theorem flattenRoots_length (ts : List Task) (n : Nat) :
    (flattenRoots n ts).length = forestSize ts := by
  induction ts generalizing n with
  | nil => simp [flattenRoots, forestSize]
  | cons t ts ih => simp [flattenRoots, forestSize, flatten_length.1, ih]

/-! ## The foreign-key ordering discipline of the pre-order rows -/

/-- `parentsBefore` is monotone in the set of already-seen ids. -/
theorem parentsBefore_mono (rows : List Row) :
    ∀ seen seen2 : List Nat, (∀ x, x ∈ seen → x ∈ seen2) →
    parentsBefore seen rows = true → parentsBefore seen2 rows = true := by
  induction rows with
  | nil => intro seen seen2 _ _; simp [parentsBefore]
  | cons r rest ih =>
    intro seen seen2 hsub h
    unfold parentsBefore at h ⊢
    simp only [Bool.and_eq_true] at h ⊢
    obtain ⟨h1, h2⟩ := h
    constructor
    · cases hp : r.parent_task_id with
      | none => simp
      | some p =>
        rw [hp] at h1
        exact List.elem_eq_true_of_mem (hsub p (List.mem_of_elem_eq_true h1))
    · refine ih _ _ ?_ h2
      intro x hx
      simp only [List.mem_cons] at hx ⊢
      rcases hx with hx | hx
      · exact Or.inl hx
      · exact Or.inr (hsub x hx)

/-- Scanning `xs ++ ys` respects the discipline when `xs` does and `ys` does
with the ids of `xs` added to the seen set. -/
theorem parentsBefore_append (xs : List Row) :
    ∀ (ys : List Row) (seen : List Nat), parentsBefore seen xs = true →
    parentsBefore (seenAfter seen xs) ys = true →
    parentsBefore seen (xs ++ ys) = true := by
  induction xs with
  | nil => intro ys seen _ h2; simpa [seenAfter] using h2
  | cons r rest ih =>
    intro ys seen h1 h2
    simp only [parentsBefore, List.cons_append, Bool.and_eq_true] at h1 ⊢
    obtain ⟨ha, hb⟩ := h1
    exact ⟨ha, ih ys _ hb (by simpa [seenAfter] using h2)⟩

/-- Ids already seen stay seen after scanning more rows. -/
theorem seenAfter_mem (xs : List Row) :
    ∀ (seen : List Nat) (x : Nat), x ∈ seen → x ∈ seenAfter seen xs := by
  induction xs with
  | nil => intro seen x hx; simpa [seenAfter] using hx
  | cons r rest ih =>
    intro seen x hx
    unfold seenAfter
    exact ih _ x (by simp [hx])

/-- The pre-order rows of a subtree and of a sibling forest obey the
foreign-key discipline: a non-null parent reference is either the supplied
(already-persisted) parent id or the id of an earlier row. -/
theorem flatten_parentsBefore :
    (∀ t : Task, ∀ n parent (seen : List Nat), (∀ p, parent = some p → p ∈ seen) →
      parentsBefore seen (flattenTask n parent t) = true) ∧
    (∀ l : List Task, ∀ n q (seen : List Nat), q ∈ seen →
      parentsBefore seen (flattenForest n q l) = true) := by
  refine taskStrongInd _ _ ?_ ?_ ?_
  · intro ttl dsc dl pr sm po sub ihsub n parent seen hseen
    unfold flattenTask parentsBefore
    simp only [Bool.and_eq_true]
    constructor
    · cases parent with
      | none => simp
      | some p =>
        exact List.elem_eq_true_of_mem (hseen p rfl)
    · cases sub with
      | none => simp [parentsBefore]
      | some osub =>
        cases osub with
        | none => simp [parentsBefore]
        | some l => exact ihsub l rfl (n + 1) n (n :: seen) (by simp)
  · intro n q seen _
    simp [flattenForest, parentsBefore]
  · intro t ts iht ihts n q seen hq
    unfold flattenForest
    refine parentsBefore_append _ _ _ (iht n (some q) seen ?_) ?_
    · intro p hp
      simp only [Option.some.injEq] at hp
      rw [← hp]
      exact hq
    · exact ihts (n + taskSize t) q _ (seenAfter_mem _ _ _ hq)

/-- The pre-order rows of an entire forest of roots obey the foreign-key
discipline from an empty seen set: every parent reference points at an
earlier row of the same transaction. -/
theorem flattenRoots_parentsBefore (ts : List Task) :
    ∀ (n : Nat) (seen : List Nat), parentsBefore seen (flattenRoots n ts) = true := by
  induction ts with
  | nil => intro n seen; simp [flattenRoots, parentsBefore]
  | cons t ts ih =>
    intro n seen
    unfold flattenRoots
    refine parentsBefore_append _ _ _ (flatten_parentsBefore.1 t n none seen (by simp)) ?_
    exact ih (n + taskSize t) _

/-! ## Claims C1, C2, C3 -/

/-- C1: for every normalized forest successfully persisted by
`insert_tasks_to_db_direct`, the returned list is exactly the store-assigned
ids of the top-level tasks (those inserted with `parent_task_id = NULL`,
which are assigned the pre-order ids `rootIds`), in the order of the
top-level input sequence, and every node of each root's subtree is persisted:
the committed rows grow by exactly the pre-order flattening of the forest,
which has one row per node. -/
theorem C1_success_returns_root_ids_in_order (tasks : List Task) (db : DB)
    (ids : List Nat) (db1 : DB)
    (hok : insertRootTasks tasks db = .ok (ids, db1)) (hpending : db.pending = []) :
    insert_tasks_to_db_direct tasks db = (ids, dbCommit db1) ∧
    ids = rootIds db.nextId tasks ∧
    (dbCommit db1).committed = db.committed ++ flattenRoots db.nextId tasks ∧
    (flattenRoots db.nextId tasks).length = forestSize tasks := by
  obtain ⟨hids, hdb1⟩ := insertRootTasks_ok_spec tasks db ids db1 hok
  refine ⟨?_, hids, ?_, flattenRoots_length tasks db.nextId⟩
  · unfold insert_tasks_to_db_direct
    rw [hok]
  · rw [hdb1]
    simp [dbCommit, hpending]

/-- Witness for C1 on a concrete forest: a root with one subtask followed by
a second root, inserted into a fresh store whose next id is 1. -/
theorem C1_success_returns_root_ids_in_order_witness :
    insert_tasks_to_db_direct
        [Task.mk (some (some "r")) (some (some "dr")) none none none none
          (some (some [Task.mk (some (some "a")) (some (some "da")) none none none none none])),
         Task.mk (some (some "b")) (some (some "db")) none none none none none]
        ⟨[], [], 1, 0, none⟩ =
      ([1, 3],
        dbCommit
          ⟨[],
           [⟨1, some "r", some "dr", none, some "Medium", none, none, none⟩,
            ⟨2, some "a", some "da", none, some "Medium", none, none, some 1⟩,
            ⟨3, some "b", some "db", none, some "Medium", none, none, none⟩],
           4, 3, none⟩) ∧
    [1, 3] =
      rootIds 1
        [Task.mk (some (some "r")) (some (some "dr")) none none none none
          (some (some [Task.mk (some (some "a")) (some (some "da")) none none none none none])),
         Task.mk (some (some "b")) (some (some "db")) none none none none none] ∧
    (dbCommit
        ⟨[],
         [⟨1, some "r", some "dr", none, some "Medium", none, none, none⟩,
          ⟨2, some "a", some "da", none, some "Medium", none, none, some 1⟩,
          ⟨3, some "b", some "db", none, some "Medium", none, none, none⟩],
         4, 3, none⟩).committed =
      ([] : List Row) ++
        flattenRoots 1
          [Task.mk (some (some "r")) (some (some "dr")) none none none none
            (some (some [Task.mk (some (some "a")) (some (some "da")) none none none none none])),
           Task.mk (some (some "b")) (some (some "db")) none none none none none] ∧
    (flattenRoots 1
        [Task.mk (some (some "r")) (some (some "dr")) none none none none
          (some (some [Task.mk (some (some "a")) (some (some "da")) none none none none none])),
         Task.mk (some (some "b")) (some (some "db")) none none none none none]).length =
      forestSize
        [Task.mk (some (some "r")) (some (some "dr")) none none none none
          (some (some [Task.mk (some (some "a")) (some (some "da")) none none none none none])),
         Task.mk (some (some "b")) (some (some "db")) none none none none none] :=
  C1_success_returns_root_ids_in_order _ _ [1, 3] _ rfl rfl

/-- C2: a successful `insert_tasks_to_db_direct` inserts rows in depth-first
pre-order — the transaction's pending rows are exactly `flattenRoots`, whose
very construction gives every non-root node's row `parent_task_id = some n`
for the store-assigned id `n` of its parent's row — and the row list obeys
the foreign-key discipline `parentsBefore`: every non-null parent reference
is the `task_id` of a strictly earlier row, so a parent row is always
inserted and id-assigned before any child row referencing it. -/
theorem C2_preorder_parent_before_child (tasks : List Task) (db : DB)
    (ids : List Nat) (db1 : DB)
    (hok : insertRootTasks tasks db = .ok (ids, db1)) (hpending : db.pending = []) :
    db1.pending = flattenRoots db.nextId tasks ∧
    parentsBefore [] (flattenRoots db.nextId tasks) = true := by
  obtain ⟨hids, hdb1⟩ := insertRootTasks_ok_spec tasks db ids db1 hok
  refine ⟨?_, flattenRoots_parentsBefore tasks db.nextId []⟩
  rw [hdb1]
  simp [hpending]

/-- Witness for C2 on a concrete forest: a root with two subtasks, the first
of which has a nested subtask. -/
theorem C2_preorder_parent_before_child_witness :
    (⟨[],
      [⟨7, some "r", some "dr", none, some "Medium", none, none, none⟩,
       ⟨8, some "a", some "da", none, some "Medium", none, none, some 7⟩,
       ⟨9, some "c", some "dc", none, some "Medium", none, none, some 8⟩,
       ⟨10, some "b", some "db", none, some "Medium", none, none, some 7⟩],
      11, 4, none⟩ : DB).pending =
      flattenRoots 7
        [Task.mk (some (some "r")) (some (some "dr")) none none none none
          (some (some
            [Task.mk (some (some "a")) (some (some "da")) none none none none
              (some (some [Task.mk (some (some "c")) (some (some "dc")) none none none none none])),
             Task.mk (some (some "b")) (some (some "db")) none none none none none]))]
        ∧
    parentsBefore []
        (flattenRoots 7
          [Task.mk (some (some "r")) (some (some "dr")) none none none none
            (some (some
              [Task.mk (some (some "a")) (some (some "da")) none none none none
                (some (some [Task.mk (some (some "c")) (some (some "dc")) none none none none none])),
               Task.mk (some (some "b")) (some (some "db")) none none none none none]))]) =
      true :=
  C2_preorder_parent_before_child _ ⟨[], [], 7, 0, none⟩ [7] _ rfl rfl

/-- C3: any failure during the walk — a malformed row (missing `title` or
`description` key, raising `KeyError`) or an injected store fault (constraint
violation / connection error) — makes `insert_tasks_to_db_direct` roll the
whole transaction back and return `[]` instead of raising: the committed rows
are exactly what they were before the call and no pending row survives, even
when the failure occurs partway through the forest. -/
theorem C3_failure_rolls_back_everything (tasks : List Task) (db : DB) (e : DB)
    (herr : insertRootTasks tasks db = .error e) :
    insert_tasks_to_db_direct tasks db = ([], dbRollback e) ∧
    (dbRollback e).committed = db.committed ∧
    (dbRollback e).pending = [] := by
  refine ⟨?_, ?_, rfl⟩
  · unfold insert_tasks_to_db_direct
    rw [herr]
  · simpa [dbRollback] using insertRootTasks_error_spec tasks db e herr

/-- Witness for C3 on the spec's own scenario: five root tasks with a store
fault injected at the third insert statement; the call returns `[]` and the
committed rows stay empty although two rows had already been inserted. -/
theorem C3_failure_rolls_back_everything_witness :
    insert_tasks_to_db_direct
        [Task.mk (some (some "t1")) (some (some "d1")) none none none none none,
         Task.mk (some (some "t2")) (some (some "d2")) none none none none none,
         Task.mk (some (some "t3")) (some (some "d3")) none none none none none,
         Task.mk (some (some "t4")) (some (some "d4")) none none none none none,
         Task.mk (some (some "t5")) (some (some "d5")) none none none none none]
        ⟨[], [], 1, 0, some 2⟩ =
      ([], dbRollback
        ⟨[],
         [⟨1, some "t1", some "d1", none, some "Medium", none, none, none⟩,
          ⟨2, some "t2", some "d2", none, some "Medium", none, none, none⟩],
         3, 2, some 2⟩) ∧
    (dbRollback
        ⟨[],
         [⟨1, some "t1", some "d1", none, some "Medium", none, none, none⟩,
          ⟨2, some "t2", some "d2", none, some "Medium", none, none, none⟩],
         3, 2, some 2⟩).committed = ([] : List Row) ∧
    (dbRollback
        ⟨[],
         [⟨1, some "t1", some "d1", none, some "Medium", none, none, none⟩,
          ⟨2, some "t2", some "d2", none, some "Medium", none, none, none⟩],
         3, 2, some 2⟩).pending = [] :=
  C3_failure_rolls_back_everything _ _ _ rfl

/-! ## Structure of the normalizer's output -/

/-- The top-level loop keeps exactly the tasks that pass the
title/description key guard, in order, each processed by `process_task` —
nothing below the top level is ever filtered. -/
theorem processTopLevel_eq_filter_map (mid : Int) (pid : Option Int) (today : Nat)
    (fmt : Nat → String) (ts : List Task) :
    processTopLevel mid pid today fmt ts =
      (ts.filter hasTitleAndDescription).map (processTask mid pid today fmt) := by
  induction ts with
  | nil => simp [processTopLevel]
  | cons t ts ih =>
    by_cases h : hasTitleAndDescription t
    · simp [processTopLevel, h, List.filter_cons, ih]
    · simp only [Bool.not_eq_true] at h
      simp [processTopLevel, h, List.filter_cons, ih]

/-- `process_task` drops no node: the subtree sizes before and after
normalization agree at every depth. -/
theorem processTask_size :
    (∀ t : Task, ∀ mid pid today fmt, taskSize (processTask mid pid today fmt t) = taskSize t) ∧
    (∀ l : List Task, ∀ mid pid today fmt,
      forestSize (processForest mid pid today fmt l) = forestSize l) := by
  refine taskStrongInd _ _ ?_ ?_ ?_
  · intro ttl dsc dl pr sm po sub ihsub mid pid today fmt
    cases sub with
    | none => simp [processTask, taskSize]
    | some osub =>
      cases osub with
      | none => simp [processTask, taskSize]
      | some l => simp [processTask, taskSize, ihsub l rfl]
  · intro mid pid today fmt
    simp [processForest, forestSize]
  · intro t ts iht ihts mid pid today fmt
    simp [processForest, forestSize, iht, ihts]

/-- Splitting a filtered length: kept plus dropped is the whole list. -/
theorem filter_length_split (p : Task → Bool) (ts : List Task) :
    (ts.filter p).length = ts.length - (ts.filter (fun t => !(p t))).length := by
  induction ts with
  | nil => simp
  | cons t ts ih =>
    by_cases h : p t
    · simp only [List.filter_cons, h, Bool.not_true, List.length_cons, ih]
      simp
      have : (List.filter (fun t => !(p t)) ts).length ≤ ts.length := by
        simpa using List.length_filter_le (fun t => !(p t)) ts
      omega
    · simp only [Bool.not_eq_true] at h
      simp only [List.filter_cons, h, Bool.not_false, List.length_cons]
      simp only [Bool.false_eq_true, if_false, if_pos trivial, List.length_cons]
      rw [ih]
      omega

/-- After `process_task`, every node of the subtree carries a `priority` key
(the top-level `setdefault` plus recursion reaches every node). -/
theorem processTask_allNodesPrioritySet :
    (∀ t : Task, ∀ mid pid today fmt,
      allNodesPrioritySet (processTask mid pid today fmt t) = true) ∧
    (∀ l : List Task, ∀ mid pid today fmt,
      allForestPrioritySet (processForest mid pid today fmt l) = true) := by
  refine taskStrongInd _ _ ?_ ?_ ?_
  · intro ttl dsc dl pr sm po sub ihsub mid pid today fmt
    cases sub with
    | none => cases pr <;> simp [processTask, allNodesPrioritySet]
    | some osub =>
      cases osub with
      | none => cases pr <;> simp [processTask, allNodesPrioritySet]
      | some l => cases pr <;> simp [processTask, allNodesPrioritySet, ihsub l rfl]
  · intro mid pid today fmt
    simp [processForest, allForestPrioritySet]
  · intro t ts iht ihts mid pid today fmt
    simp [processForest, allForestPrioritySet, iht, ihts]

/-- The `priority` entry after `process_task`: present, `Medium` exactly when
the key was absent, and otherwise the raw value (including `null`). -/
theorem processTask_priority (mid : Int) (pid : Option Int) (today : Nat)
    (fmt : Nat → String) (t : Task) :
    (processTask mid pid today fmt t).priority = some (t.priority.getD (some "Medium")) := by
  cases t with
  | mk ttl dsc dl pr sm po sub =>
    cases pr with
    | none => simp [processTask, Task.priority, Option.getD]
    | some v => simp [processTask, Task.priority, Option.getD]

/-- The `deadline` entry after `process_task`: `setdefault(None)` followed by
the "This week" resolution. -/
theorem processTask_deadline (mid : Int) (pid : Option Int) (today : Nat)
    (fmt : Nat → String) (t : Task) :
    (processTask mid pid today fmt t).deadline =
      (if (match t.deadline with | none => some none | some v => some v) =
          some (some "This week")
       then some (some (fmt (today + daysUntilFriday today)))
       else (match t.deadline with | none => some none | some v => some v)) := by
  cases t with
  | mk ttl dsc dl pr sm po sub => simp [processTask, Task.deadline]

/-! ## Claims C4, C5, C6 -/

/-- C4 (amended): only top-level nodes are validated, and only for presence
of the `title` and `description` keys (empty strings pass): a top-level node
missing either key is dropped while its valid siblings are kept, so the
normalized top level is exactly the guarded filter of the input in order, and
its length is the input length minus the number of invalid top-level nodes;
nested subtask nodes are never dropped — `process_task` preserves subtree
node counts at every depth. -/
theorem C4_top_level_nodes_without_keys_dropped (mid : Int) (pid : Option Int)
    (today : Nat) (fmt : Nat → String) (ts : List Task) (t : Task) :
    processTopLevel mid pid today fmt ts =
      (ts.filter hasTitleAndDescription).map (processTask mid pid today fmt) ∧
    (processTopLevel mid pid today fmt ts).length =
      ts.length - (ts.filter (fun u => !(hasTitleAndDescription u))).length ∧
    taskSize (processTask mid pid today fmt t) = taskSize t := by
  refine ⟨processTopLevel_eq_filter_map mid pid today fmt ts, ?_,
    processTask_size.1 t mid pid today fmt⟩
  rw [processTopLevel_eq_filter_map]
  simp only [List.length_map]
  exact filter_length_split hasTitleAndDescription ts

/-- Counterexample to C4 as stated: a root with a nested subtask that lacks
the `description` key.  The nested invalid node is not dropped — it survives
normalization (still without a `description`), so the normalized forest has 2
nodes although the claim predicts input − invalid = 2 − 1 = 1; validation
happens at the top level only, and only for key presence. -/
theorem C4_nested_invalid_node_kept_counterexample :
    processTopLevel 1 none 0 (fun _ => "")
        [Task.mk (some (some "r")) (some (some "dr")) none none none none
          (some (some [Task.mk (some (some "bad")) none none none none none none]))] =
      [Task.mk (some (some "r")) (some (some "dr")) (some none) (some (some "Medium"))
        (some (some 1)) none
        (some (some [Task.mk (some (some "bad")) none (some none) (some (some "Medium"))
          (some (some 1)) none none]))] ∧
    forestSize (processTopLevel 1 none 0 (fun _ => "")
        [Task.mk (some (some "r")) (some (some "dr")) none none none none
          (some (some [Task.mk (some (some "bad")) none none none none none none]))]) = 2 :=
  ⟨rfl, rfl⟩

/-- C5 (amended): after normalization the `priority` key is present on every
node at every depth; a missing key is filled with `Medium`, but an explicit
`null` value is left as `null` (`setdefault` does not replace `None`), so
"never left unset" holds only in the key-presence sense. -/
theorem C5_priority_key_always_present_medium_when_missing (mid : Int)
    (pid : Option Int) (today : Nat) (fmt : Nat → String) (t : Task) (ts : List Task) :
    (processTask mid pid today fmt t).priority = some (t.priority.getD (some "Medium")) ∧
    allNodesPrioritySet (processTask mid pid today fmt t) = true ∧
    (processTopLevel mid pid today fmt ts).all allNodesPrioritySet = true := by
  refine ⟨processTask_priority mid pid today fmt t,
    processTask_allNodesPrioritySet.1 t mid pid today fmt, ?_⟩
  rw [processTopLevel_eq_filter_map]
  simp only [List.all_eq_true, List.mem_map]
  rintro x ⟨u, _, rfl⟩
  exact processTask_allNodesPrioritySet.1 u mid pid today fmt

/-- Counterexample to C5 as stated: a node whose raw `priority` key is
present but bound to `null`.  Normalization leaves it `null` (`some none`) —
not `Medium` — so the normalized forest contains a node with a null
priority. -/
theorem C5_null_priority_survives_counterexample :
    processTopLevel 1 none 0 (fun _ => "")
        [Task.mk (some (some "t")) (some (some "d")) none (some none) none none none] =
      [Task.mk (some (some "t")) (some (some "d")) (some none) (some none)
        (some (some 1)) none none] ∧
    (Task.mk (some (some "t")) (some (some "d")) (some none) (some none)
        (some (some 1)) none none).priority = some none ∧
    (Task.mk (some (some "t")) (some (some "d")) (some none) (some none)
        (some (some 1)) none none).priority ≠ some (some "Medium") :=
  ⟨rfl, rfl, by decide⟩

/-- C6: a `deadline` equal to the literal "This week" is resolved to the
formatted date of the upcoming Friday, `today + (4 - weekday) % 7` days from
the processing date; on a Wednesday (`weekday = 2`) that is two days later —
the Friday of the same Monday-based week — and on a Friday (`weekday = 4`)
it is the processing date itself; a missing `deadline` key is filled with
`null`. -/
theorem C6_this_week_resolved_to_upcoming_friday (mid : Int) (pid : Option Int)
    (today : Nat) (fmt : Nat → String) (t t2 : Task)
    (hdl : t.deadline = some (some "This week")) (hdl2 : t2.deadline = none) :
    (processTask mid pid today fmt t).deadline =
      some (some (fmt (today + daysUntilFriday today))) ∧
    (today % 7 = 2 → daysUntilFriday today = 2 ∧ (today + daysUntilFriday today) % 7 = 4 ∧
      (today + daysUntilFriday today) / 7 = today / 7) ∧
    (today % 7 = 4 → daysUntilFriday today = 0) ∧
    (processTask mid pid today fmt t2).deadline = some none := by
  refine ⟨?_, ?_, ?_, ?_⟩
  · rw [processTask_deadline, hdl]
    simp
  · intro h
    have hd : daysUntilFriday today = 2 := by
      unfold daysUntilFriday
      rw [h]
      decide
    refine ⟨hd, ?_, ?_⟩ <;> rw [hd] <;> omega
  · intro h
    unfold daysUntilFriday
    rw [h]
    decide
  · rw [processTask_deadline, hdl2]
    simp

/-- Witness for C6 with the processing date `today = 2`, a Wednesday of the
Monday-based epoch week: "This week" resolves to two days later, the Friday
of the same week, and a task without a `deadline` key gets `null`. -/
theorem C6_this_week_resolved_to_upcoming_friday_witness :
    (processTask 5 none 2 (fun n => toString n)
        (Task.mk (some (some "t")) (some (some "d")) (some (some "This week"))
          none none none none)).deadline =
      some (some (toString (2 + daysUntilFriday 2))) ∧
    (2 % 7 = 2 → daysUntilFriday 2 = 2 ∧ (2 + daysUntilFriday 2) % 7 = 4 ∧
      (2 + daysUntilFriday 2) / 7 = 2 / 7) ∧
    (2 % 7 = 4 → daysUntilFriday 2 = 0) ∧
    (processTask 5 none 2 (fun n => toString n)
        (Task.mk (some (some "u")) (some (some "e")) none none none none none)).deadline =
      some none :=
  C6_this_week_resolved_to_upcoming_friday 5 none 2 (fun n => toString n)
    (Task.mk (some (some "t")) (some (some "d")) (some (some "This week")) none none none none)
    (Task.mk (some (some "u")) (some (some "e")) none none none none none) rfl rfl

/-! ## Claim C10 -/

/-- Passing `portfolio_id = 0` and passing `None` run the same code path:
`if portfolio_id:` is false for both, so `process_task` behaves
identically. -/
theorem processTask_zero_portfolio_eq_none :
    (∀ t : Task, ∀ mid today fmt,
      processTask mid (some 0) today fmt t = processTask mid none today fmt t) ∧
    (∀ l : List Task, ∀ mid today fmt,
      processForest mid (some 0) today fmt l = processForest mid none today fmt l) := by
  refine taskStrongInd _ _ ?_ ?_ ?_
  · intro ttl dsc dl pr sm po sub ihsub mid today fmt
    cases sub with
    | none => simp [processTask]
    | some osub =>
      cases osub with
      | none => simp [processTask]
      | some l => simp [processTask, ihsub l rfl]
  · intro mid today fmt
    simp [processForest]
  · intro t ts iht ihts mid today fmt
    simp [processForest, iht, ihts]

/-- With a falsy `portfolio_id` argument, `process_task` never touches the
`portfolio_id` key of any node: key-absence is preserved at every depth. -/
theorem processTask_none_preserves_noPortfolioKey :
    (∀ t : Task, ∀ mid today fmt, allNodesNoPortfolioKey t = true →
      allNodesNoPortfolioKey (processTask mid none today fmt t) = true) ∧
    (∀ l : List Task, ∀ mid today fmt, allForestNoPortfolioKey l = true →
      allForestNoPortfolioKey (processForest mid none today fmt l) = true) := by
  refine taskStrongInd _ _ ?_ ?_ ?_
  · intro ttl dsc dl pr sm po sub ihsub mid today fmt h
    cases sub with
    | none =>
      simp [allNodesNoPortfolioKey] at h
      simp [processTask, allNodesNoPortfolioKey, h]
    | some osub =>
      cases osub with
      | none =>
        simp [allNodesNoPortfolioKey] at h
        simp [processTask, allNodesNoPortfolioKey, h]
      | some l =>
        simp [allNodesNoPortfolioKey] at h
        simp [processTask, allNodesNoPortfolioKey, h.1, ihsub l rfl mid today fmt h.2]
  · intro mid today fmt _
    simp [processForest, allForestNoPortfolioKey]
  · intro t ts iht ihts mid today fmt h
    simp [allForestNoPortfolioKey] at h
    simp [processForest, allForestNoPortfolioKey, iht mid today fmt h.1, ihts mid today fmt h.2]

/-- A subtree none of whose nodes carries a `portfolio_id` key is persisted
with `portfolio_id = NULL` in every row. -/
theorem flatten_noPortfolioKey_null_rows :
    (∀ t : Task, allNodesNoPortfolioKey t = true →
      ∀ n parent r, r ∈ flattenTask n parent t → r.portfolio_id = none) ∧
    (∀ l : List Task, allForestNoPortfolioKey l = true →
      ∀ n parent r, r ∈ flattenForest n parent l → r.portfolio_id = none) := by
  refine taskStrongInd _ _ ?_ ?_ ?_
  · intro ttl dsc dl pr sm po sub ihsub h n parent r hr
    cases sub with
    | none =>
      simp [allNodesNoPortfolioKey, Option.isNone_iff_eq_none] at h
      simp [flattenTask] at hr
      rw [hr]
      simp [h]
    | some osub =>
      cases osub with
      | none =>
        simp [allNodesNoPortfolioKey, Option.isNone_iff_eq_none] at h
        simp [flattenTask] at hr
        rw [hr]
        simp [h]
      | some l =>
        simp [allNodesNoPortfolioKey, Option.isNone_iff_eq_none] at h
        simp [flattenTask] at hr
        rcases hr with hr | hr
        · rw [hr]
          simp [h.1]
        · exact ihsub l rfl h.2 (n + 1) n r hr
  · intro _ n parent r hr
    simp [flattenForest] at hr
  · intro t ts iht ihts h n parent r hr
    simp [allForestNoPortfolioKey] at h
    simp [flattenForest] at hr
    rcases hr with hr | hr
    · exact iht h.1 n parent r hr
    · exact ihts h.2 (n + taskSize t) parent r hr

/-- C10 (amended): when the `portfolio_id` argument is falsy (`None` or the
real identifier `0`) the normalizer adds no `portfolio_id` key: passing `0`
produces exactly the same output as passing `None` (all the way through
`generate_tasks`), the `portfolio_id` entry of every processed node is
whatever the raw node carried, and on forests whose raw nodes carry no
`portfolio_id` key every persisted row has `portfolio_id = NULL`.  (As
stated, the claim fails only for raw nodes that already carry a
`portfolio_id` key — see the counterexample.) -/
theorem C10_falsy_portfolio_id_never_set (parse : List Char → Option ParseResult)
    (completion : Option (List Char)) (mid : Int) (pid : Option Int) (today : Nat)
    (fmt : Nat → String) (t : Task) (n : Nat) (parent : Option Nat) (r : Row)
    (hfalsy : pid = none ∨ pid = some 0)
    (hnokey : allNodesNoPortfolioKey t = true)
    (hr : r ∈ flattenTask n parent (processTask mid pid today fmt t)) :
    generate_tasks parse completion mid pid today fmt =
      generate_tasks parse completion mid none today fmt ∧
    (processTask mid pid today fmt t).portfolio_id = t.portfolio_id ∧
    allNodesNoPortfolioKey (processTask mid pid today fmt t) = true ∧
    r.portfolio_id = none := by
  have hpt : processTask mid pid today fmt t = processTask mid none today fmt t := by
    rcases hfalsy with h | h <;> subst h
    · rfl
    · exact processTask_zero_portfolio_eq_none.1 t mid today fmt
  have hkeep : allNodesNoPortfolioKey (processTask mid pid today fmt t) = true := by
    rw [hpt]
    exact processTask_none_preserves_noPortfolioKey.1 t mid today fmt hnokey
  refine ⟨?_, ?_, hkeep, ?_⟩
  · rcases hfalsy with h | h <;> subst h
    · rfl
    · unfold generate_tasks
      cases completion with
      | none => rfl
      | some text =>
        dsimp only
        cases parse (cleanJsonText text) with
        | none => rfl
        | some pres =>
          cases pres with
          | nonList => rfl
          | list tasks =>
            show processTopLevel mid (some 0) today fmt tasks =
              processTopLevel mid none today fmt tasks
            rw [processTopLevel_eq_filter_map, processTopLevel_eq_filter_map]
            exact List.map_congr_left
              (fun u _ => processTask_zero_portfolio_eq_none.1 u mid today fmt)
  · have hnone : t.portfolio_id.isNone = true := by
      cases t with
      | mk ttl dsc dl pr sm po sub =>
        cases sub with
        | none => simpa [allNodesNoPortfolioKey, Task.portfolio_id] using hnokey
        | some osub =>
          cases osub with
          | none => simpa [allNodesNoPortfolioKey, Task.portfolio_id] using hnokey
          | some l =>
            simp only [allNodesNoPortfolioKey, Bool.and_eq_true] at hnokey
            simpa [Task.portfolio_id] using hnokey.1
    rw [Option.isNone_iff_eq_none] at hnone
    rw [hnone]
    cases t with
    | mk ttl dsc dl pr sm po sub =>
      simp only [Task.portfolio_id] at hnone
      subst hnone
      rcases hfalsy with h | h <;> subst h <;> simp [processTask, Task.portfolio_id]
  · exact flatten_noPortfolioKey_null_rows.1 _ hkeep n parent r hr

/-- Witness for C10: a node with no `portfolio_id` key, processed with the
falsy identifier `0`; the single persisted row carries `portfolio_id =
NULL`, and `generate_tasks` behaves as with no identifier at all. -/
theorem C10_falsy_portfolio_id_never_set_witness :
    generate_tasks (fun _ => none) none 5 (some 0) 0 (fun _ => "") =
      generate_tasks (fun _ => none) none 5 none 0 (fun _ => "") ∧
    (processTask 5 (some 0) 0 (fun _ => "")
        (Task.mk (some (some "t")) (some (some "d")) none none none none none)).portfolio_id =
      (Task.mk (some (some "t")) (some (some "d")) none none none none none).portfolio_id ∧
    allNodesNoPortfolioKey (processTask 5 (some 0) 0 (fun _ => "")
        (Task.mk (some (some "t")) (some (some "d")) none none none none none)) = true ∧
    (⟨1, some "t", some "d", none, some "Medium", some 5, none, none⟩ : Row).portfolio_id =
      none :=
  C10_falsy_portfolio_id_never_set (fun _ => none) none 5 (some 0) 0 (fun _ => "")
    (Task.mk (some (some "t")) (some (some "d")) none none none none none) 1 none
    ⟨1, some "t", some "d", none, some "Medium", some 5, none, none⟩
    (Or.inr rfl) rfl (by decide)

/-- Counterexample to C10 as stated: with the falsy argument `0`, a raw node
that already carries a `portfolio_id` key (here bound to `5`, e.g. produced
verbatim by the AI) keeps it — the returned forest does contain a node with
a `portfolio_id` key, which is then persisted, not `NULL`. -/
theorem C10_raw_portfolio_key_kept_counterexample :
    processTopLevel 1 (some 0) 0 (fun _ => "")
        [Task.mk (some (some "t")) (some (some "d")) none none none (some (some 5)) none] =
      [Task.mk (some (some "t")) (some (some "d")) (some none) (some (some "Medium"))
        (some (some 1)) (some (some 5)) none] ∧
    (Task.mk (some (some "t")) (some (some "d")) (some none) (some (some "Medium"))
        (some (some 1)) (some (some 5)) none).portfolio_id = some (some 5) ∧
    (flattenTask 1 none
        (Task.mk (some (some "t")) (some (some "d")) (some none) (some (some "Medium"))
          (some (some 1)) (some (some 5)) none)).map Row.portfolio_id = [some 5] :=
  ⟨rfl, rfl, rfl⟩

/-! ## Claim C7 -/

/-- C7: the generation step fails closed.  If the completion is missing (no
candidates / no extractable text), or is the empty string (any real JSON
parser rejects the empty input — hypothesis `hempty`), or its fence-cleaned
content is not valid JSON, or parses to a non-list top-level value, then
`generate_tasks` returns `[]` without raising, and
`process_meeting_transcript` also returns `[]` and never touches the
database. -/
theorem C7_generation_fails_closed (parse : List Char → Option ParseResult)
    (completion : Option (List Char)) (mid : Int) (pid : Option Int) (today : Nat)
    (fmt : Nat → String) (db : DB)
    (hempty : parse [] = none)
    (hcase : completion = none ∨ completion = some [] ∨
      (∃ text, completion = some text ∧ parse (cleanJsonText text) = none) ∨
      (∃ text, completion = some text ∧ parse (cleanJsonText text) = some .nonList)) :
    generate_tasks parse completion mid pid today fmt = [] ∧
    process_meeting_transcript parse completion mid pid today fmt db = ([], db) := by
  have hgen : generate_tasks parse completion mid pid today fmt = [] := by
    rcases hcase with h | h | ⟨text, h, hp⟩ | ⟨text, h, hp⟩ <;> subst h
    · rfl
    · unfold generate_tasks
      dsimp only
      rw [show cleanJsonText [] = [] from rfl, hempty]
    · unfold generate_tasks
      dsimp only
      rw [hp]
    · unfold generate_tasks
      dsimp only
      rw [hp]
  refine ⟨hgen, ?_⟩
  unfold process_meeting_transcript
  rw [hgen]
  rfl

/-- Witness for C7: a completion that is not valid JSON (every input is
rejected by this parser, including the cleaned text and the empty string):
no tasks, and the database state is returned untouched. -/
theorem C7_generation_fails_closed_witness :
    generate_tasks (fun _ => none) (some "not json".toList) 5 none 0 (fun _ => "") = [] ∧
    process_meeting_transcript (fun _ => none) (some "not json".toList) 5 none 0 (fun _ => "")
        ⟨[], [], 1, 0, none⟩ =
      ([], ⟨[], [], 1, 0, none⟩) :=
  C7_generation_fails_closed (fun _ => none) (some "not json".toList) 5 none 0 (fun _ => "")
    ⟨[], [], 1, 0, none⟩ rfl (Or.inr (Or.inr (Or.inl ⟨"not json".toList, rfl, rfl⟩)))

/-! ## Claim C8: fence stripping -/

/-- `str.strip` is the identity on a string whose first and last characters
are not whitespace. -/
theorem pyStrip_eq_self (s : List Char)
    (hh : ∀ c, s.head? = some c → pyIsSpace c = false)
    (hl : ∀ c, s.getLast? = some c → pyIsSpace c = false) :
    pyStrip s = s := by
  cases s with
  | nil => rfl
  | cons c rest =>
    have hc : pyIsSpace c = false := hh c rfl
    unfold pyStrip
    rw [List.dropWhile_cons, hc]
    simp only [Bool.false_eq_true, if_false]
    obtain ⟨d, hd⟩ : ∃ d, (c :: rest).getLast? = some d := by
      cases hgl : (c :: rest).getLast? with
      | none => simp at hgl
      | some d => exact ⟨d, rfl⟩
    have hdns : pyIsSpace d = false := hl d hd
    have hrev : (c :: rest).reverse.head? = some d := by
      rw [List.head?_reverse]
      exact hd
    obtain ⟨ds, hds⟩ : ∃ ds, (c :: rest).reverse = d :: ds := by
      cases hr : (c :: rest).reverse with
      | nil => rw [hr] at hrev; simp at hrev
      | cons x xs =>
        rw [hr] at hrev
        simp only [List.head?_cons, Option.some.injEq] at hrev
        exact ⟨xs, by rw [hrev]⟩
    rw [hds, List.dropWhile_cons, hdns]
    simp only [Bool.false_eq_true, if_false]
    rw [← hds, List.reverse_reverse]

/-- `str.strip` absorbs a trailing newline. -/
theorem pyStrip_append_newline (xs : List Char) (nlc : Char) (hnlc : nlc = Char.ofNat 10) :
    pyStrip (xs ++ [nlc]) = pyStrip xs := by
  unfold pyStrip
  cases h : xs.dropWhile pyIsSpace with
  | nil =>
    rw [List.dropWhile_append, h]
    simp [pyIsSpace, hnlc]
  | cons c cs =>
    rw [List.dropWhile_append, h]
    simp only [List.isEmpty_cons, Bool.false_eq_true, if_false]
    rw [List.reverse_append]
    simp only [List.reverse_cons, List.reverse_nil, List.nil_append, List.singleton_append]
    rw [List.dropWhile_cons]
    simp [pyIsSpace, hnlc]

/-- `str.find` locates the first occurrence of a character right after a
prefix free of it. -/
theorem pyFindAux_first (ys rest : List Char) (nlc : Char)
    (hys : nlc ∉ ys) :
    pyFindAux [nlc] (ys ++ nlc :: rest) = some ys.length := by
  induction ys with
  | nil =>
    simp only [List.nil_append]
    unfold pyFindAux
    simp [List.isPrefixOf]
  | cons y ys ih =>
    have hy : y ≠ nlc := by
      intro hcontra
      rw [hcontra] at hys
      exact hys (List.mem_cons_self nlc ys)
    have hys2 : nlc ∉ ys := fun hmem => hys (List.mem_cons_of_mem y hmem)
    simp only [List.cons_append]
    unfold pyFindAux
    have hpre : [nlc].isPrefixOf (y :: (ys ++ nlc :: rest)) = false := by
      simp [List.isPrefixOf]
      intro hcontra
      exact absurd hcontra.symm hy
    rw [hpre]
    simp only [Bool.false_eq_true, if_false, ih hys2]
    rfl

/-- `str.rfind` of the fence marker on a string ending with the marker finds
exactly the final occurrence. -/
theorem pyRfindAux_fence (xs : List Char) :
    pyRfindAux fenceMarker (xs ++ fenceMarker) = some xs.length := by
  induction xs with
  | nil =>
    simp only [List.nil_append]
    decide
  | cons x xs ih =>
    simp only [List.cons_append]
    unfold pyRfindAux
    rw [ih]
    simp

/-- `str.strip` is the identity on a fence-wrapped string: it starts and ends
with a backtick. -/
theorem pyStrip_fence_wrapped (x : List Char) :
    pyStrip (fenceMarker ++ x ++ fenceMarker) = fenceMarker ++ x ++ fenceMarker := by
  refine pyStrip_eq_self _ ?_ ?_
  · intro c hc
    rw [List.append_assoc, List.head?_append,
      show fenceMarker.head? = some (Char.ofNat 96) from by decide] at hc
    simp only [Option.or, Option.some.injEq] at hc
    rw [← hc]
    decide
  · intro c hc
    have hlast : (fenceMarker ++ x ++ fenceMarker).getLast? = fenceMarker.getLast? :=
      List.getLast?_append_of_ne_nil _ (by decide)
    rw [hlast] at hc
    have hval : fenceMarker.getLast? = some (Char.ofNat 96) := by decide
    rw [hval] at hc
    simp only [Option.some.injEq] at hc
    rw [← hc]
    decide

/-- `cleanJsonText` on a payload whose stripped form does not begin with a
fence marker is just `str.strip`. -/
theorem cleanJsonText_unfenced (payload : List Char)
    (hpl : fenceMarker.isPrefixOf (pyStrip payload) = false) :
    cleanJsonText payload = pyStrip payload := by
  unfold cleanJsonText cleanStripped
  rw [hpl]
  simp only [Bool.false_and, Bool.false_eq_true, if_false]
  have hjson : fenceMarkerJson.isPrefixOf (pyStrip payload) = false := by
    cases h : fenceMarkerJson.isPrefixOf (pyStrip payload) with
    | false => rfl
    | true =>
      have hpfx : fenceMarkerJson <+: pyStrip payload := List.isPrefixOf_iff_prefix.mp h
      have hfm : fenceMarker <+: fenceMarkerJson := ⟨"json".toList, by decide⟩
      have hcontra := List.isPrefixOf_iff_prefix.mpr (hfm.trans hpfx)
      rw [hpl] at hcontra
      exact absurd hcontra (by simp)
  rw [hjson]
  simp

/-- `cleanJsonText` strips a surrounding code fence — with or without a
language tag on the opening fence line — down to the stripped payload. -/
theorem cleanJsonText_fenced (tag payload : List Char)
    (htag : ('\n' : Char) ∉ tag) :
    cleanJsonText (fenceMarker ++ tag ++ '\n' :: payload ++ '\n' :: fenceMarker) =
      pyStrip payload := by
  have hT : fenceMarker ++ tag ++ '\n' :: payload ++ '\n' :: fenceMarker =
      fenceMarker ++ (tag ++ '\n' :: payload ++ ['\n']) ++ fenceMarker := by
    simp
  rw [hT]
  have hstrip := pyStrip_fence_wrapped (tag ++ '\n' :: payload ++ ['\n'])
  unfold cleanJsonText cleanStripped
  rw [hstrip]
  have hpre : fenceMarker.isPrefixOf
      (fenceMarker ++ (tag ++ '\n' :: payload ++ ['\n']) ++ fenceMarker) = true := by
    refine List.isPrefixOf_iff_prefix.mpr ?_
    exact ⟨(tag ++ '\n' :: payload ++ ['\n']) ++ fenceMarker, by simp⟩
  have hsuf : fenceMarker.isSuffixOf
      (fenceMarker ++ (tag ++ '\n' :: payload ++ ['\n']) ++ fenceMarker) = true := by
    refine List.isSuffixOf_iff_suffix.mpr ?_
    exact ⟨fenceMarker ++ (tag ++ '\n' :: payload ++ ['\n']), by simp⟩
  rw [hpre, hsuf]
  simp only [Bool.and_self, if_pos]
  have hnotin : ('\n' : Char) ∉ fenceMarker ++ tag := by
    intro hmem
    rcases List.mem_append.mp hmem with h | h
    · exact absurd h (by decide)
    · exact htag h
  have hfind : pyFind ['\n']
      (fenceMarker ++ (tag ++ '\n' :: payload ++ ['\n']) ++ fenceMarker) =
      (((fenceMarker ++ tag).length : Nat) : Int) := by
    unfold pyFind
    rw [show fenceMarker ++ (tag ++ '\n' :: payload ++ ['\n']) ++ fenceMarker =
        (fenceMarker ++ tag) ++ '\n' :: (payload ++ '\n' :: fenceMarker) from by simp]
    rw [pyFindAux_first (fenceMarker ++ tag) (payload ++ '\n' :: fenceMarker) '\n' hnotin]
  have hrfind : pyRfind fenceMarker
      (fenceMarker ++ (tag ++ '\n' :: payload ++ ['\n']) ++ fenceMarker) =
      (((fenceMarker ++ (tag ++ '\n' :: payload ++ ['\n'])).length : Nat) : Int) := by
    unfold pyRfind
    rw [pyRfindAux_fence (fenceMarker ++ (tag ++ '\n' :: payload ++ ['\n']))]
  rw [hfind, hrfind]
  have hlen : (fenceMarker ++ (tag ++ '\n' :: payload ++ ['\n']) ++ fenceMarker).length =
      (fenceMarker ++ (tag ++ '\n' :: payload ++ ['\n'])).length + 3 := by
    have hfm3 : fenceMarker.length = 3 := by decide
    simp only [List.length_append, List.length_cons]
    omega
  have hb : pySliceBound
      (fenceMarker ++ (tag ++ '\n' :: payload ++ ['\n']) ++ fenceMarker).length
      (((fenceMarker ++ (tag ++ '\n' :: payload ++ ['\n'])).length : Nat) : Int) =
      (fenceMarker ++ (tag ++ '\n' :: payload ++ ['\n'])).length := by
    unfold pySliceBound
    rw [if_neg (by omega)]
    omega
  have ha : pySliceBound
      (fenceMarker ++ (tag ++ '\n' :: payload ++ ['\n']) ++ fenceMarker).length
      ((((fenceMarker ++ tag).length : Nat) : Int) + 1) =
      (fenceMarker ++ tag).length + 1 := by
    unfold pySliceBound
    rw [if_neg (by omega)]
    have hle : (fenceMarker ++ tag).length + 1 ≤
        (fenceMarker ++ (tag ++ '\n' :: payload ++ ['\n']) ++ fenceMarker).length := by
      simp only [List.length_append, List.length_cons]
      omega
    omega
  unfold pySlice
  rw [hb, ha]
  rw [List.take_left]
  rw [show fenceMarker ++ (tag ++ '\n' :: payload ++ ['\n']) =
      (fenceMarker ++ tag ++ ['\n']) ++ (payload ++ ['\n']) from by simp]
  rw [List.drop_left' (show (fenceMarker ++ tag ++ ['\n']).length =
      (fenceMarker ++ tag).length + 1 from by
        simp [List.length_append]
        omega)]
  exact pyStrip_append_newline payload '\n' (by decide)

/-- C8: a JSON payload wrapped in surrounding code fences — `` ``` `` plus an
optional language tag, a newline, the payload, a newline and a closing
`` ``` `` — is cleaned to exactly the same text as the bare payload (both
reduce to the stripped payload; the hypotheses say the tag line has no
embedded newline and the payload itself does not begin with a fence marker,
true of every JSON value), so `generate_tasks` parses the fenced and the
unfenced completion identically. -/
theorem C8_fenced_payload_parses_identically (parse : List Char → Option ParseResult)
    (payload tag : List Char) (mid : Int) (pid : Option Int) (today : Nat)
    (fmt : Nat → String)
    (htag : ('\n' : Char) ∉ tag)
    (hpl : fenceMarker.isPrefixOf (pyStrip payload) = false) :
    cleanJsonText (fenceMarker ++ tag ++ '\n' :: payload ++ '\n' :: fenceMarker) =
      cleanJsonText payload ∧
    generate_tasks parse
        (some (fenceMarker ++ tag ++ '\n' :: payload ++ '\n' :: fenceMarker))
        mid pid today fmt =
      generate_tasks parse (some payload) mid pid today fmt := by
  have hclean : cleanJsonText (fenceMarker ++ tag ++ '\n' :: payload ++ '\n' :: fenceMarker) =
      cleanJsonText payload := by
    rw [cleanJsonText_fenced tag payload htag, cleanJsonText_unfenced payload hpl]
  refine ⟨hclean, ?_⟩
  unfold generate_tasks
  dsimp only
  rw [hclean]

/-- Witness for C8: the payload `[]` wrapped in a ```` ```json ```` fence
parses exactly like the bare payload. -/
theorem C8_fenced_payload_parses_identically_witness :
    cleanJsonText (fenceMarker ++ "json".toList ++ '\n' :: "[]".toList ++
        '\n' :: fenceMarker) =
      cleanJsonText "[]".toList ∧
    generate_tasks (fun _ => none)
        (some (fenceMarker ++ "json".toList ++ '\n' :: "[]".toList ++ '\n' :: fenceMarker))
        5 none 0 (fun _ => "") =
      generate_tasks (fun _ => none) (some "[]".toList) 5 none 0 (fun _ => "") :=
  C8_fenced_payload_parses_identically (fun _ => none) "[]".toList "json".toList
    5 none 0 (fun _ => "") (by decide) (by decide)

/-! ## Claim C9: the normalizer mutates its input in place -/

/-- The field updates of `process_task` never touch the `subtasks` entry. -/
theorem processObjFields_subtasks (mid : Int) (pid : Option Int) (today : Nat)
    (fmt : Nat → String) (o : TaskObj) :
    (processObjFields mid pid today fmt o).subtasks = o.subtasks := by
  unfold processObjFields
  cases pid with
  | none => dsimp only; split <;> rfl
  | some v =>
    dsimp only
    by_cases hv : v = 0
    · simp only [hv, ne_eq, not_true_eq_false, Bool.false_eq_true, if_false]
      split <;> rfl
    · simp only [ne_eq, hv, not_false_eq_true, if_pos]
      split <;> rfl

/-- Overwriting an object with one having the same `subtasks` entry changes
no `childRefs`. -/
theorem set_childRefs (st : Store) (r : Nat) (o o2 : TaskObj)
    (hget : st.get? r = some o) (hsub : o2.subtasks = o.subtasks) (j : Nat) :
    childRefs (st.set r o2) j = childRefs st j := by
  unfold childRefs
  by_cases hj : r = j
  · subst hj
    have hlt : r < st.length := by
      by_contra hge
      rw [List.get?_eq_none.mpr (by omega)] at hget
      exact absurd hget (by simp)
    rw [List.get?_set_eq_of_lt _ hlt, hget]
    dsimp only
    rw [hsub]
  · rw [List.get?_set_ne _ _ hj]

/-- Processing never changes any object's `subtasks` references. -/
theorem processTaskHeap_childRefs :
    ∀ (fuel : Nat) (mid : Int) (pid : Option Int) (today : Nat) (fmt : Nat → String)
      (r : Nat) (st : Store) (j : Nat),
    childRefs (processTaskHeap mid pid today fmt fuel r st) j = childRefs st j := by
  intro fuel
  induction fuel with
  | zero => intro mid pid today fmt r st j; rfl
  | succ fuel ih =>
    intro mid pid today fmt r st j
    unfold processTaskHeap
    cases hget : st.get? r with
    | none => rfl
    | some o =>
      dsimp only
      have hcr1 : ∀ j2, childRefs (st.set r (processObjFields mid pid today fmt o)) j2 =
          childRefs st j2 :=
        fun j2 => set_childRefs st r o _ hget (processObjFields_subtasks mid pid today fmt o) j2
      cases hsub : (processObjFields mid pid today fmt o).subtasks with
      | none => exact hcr1 j
      | some osub =>
        cases osub with
        | none => exact hcr1 j
        | some rs =>
          have hfold : ∀ (l : List Nat) (st2 : Store),
              (∀ j2, childRefs st2 j2 = childRefs st j2) →
              ∀ j2, childRefs
                  (l.foldl (fun acc r2 => processTaskHeap mid pid today fmt fuel r2 acc) st2) j2 =
                childRefs st j2 := by
            intro l
            induction l with
            | nil => intro st2 h j2; exact h j2
            | cons x xs ihl =>
              intro st2 h j2
              simp only [List.foldl_cons]
              refine ihl _ (fun j3 => ?_) j2
              rw [ih mid pid today fmt x st2 j3]
              exact h j3
          exact hfold rs _ hcr1 j

/-- Reachability depends only on `childRefs`, so it is stable under
processing. -/
theorem reachHeap_congr :
    ∀ (fuel : Nat) (r : Nat) (st st2 : Store),
    (∀ j, childRefs st2 j = childRefs st j) →
    reachHeap fuel r st2 = reachHeap fuel r st := by
  intro fuel
  induction fuel with
  | zero => intro r st st2 _; rfl
  | succ fuel ih =>
    intro r st st2 h
    unfold reachHeap
    rw [h r]
    congr 1
    have key : ∀ l : List Nat,
        (l.flatMap fun r2 => reachHeap fuel r2 st2) =
          l.flatMap fun r2 => reachHeap fuel r2 st := by
      intro l
      induction l with
      | nil => rfl
      | cons x xs ihl =>
        simp only [List.flatMap_cons]
        rw [ih x st st2 h, ihl]
    exact key _

/-- Frame property of the in-place normalizer: a store entry not reachable
from the processed root through `subtasks` references is untouched. -/
theorem processTaskHeap_frame :
    ∀ (fuel : Nat) (mid : Int) (pid : Option Int) (today : Nat) (fmt : Nat → String)
      (r : Nat) (st : Store) (i : Nat),
    i ∉ reachHeap fuel r st →
    (processTaskHeap mid pid today fmt fuel r st).get? i = st.get? i := by
  intro fuel
  induction fuel with
  | zero => intro mid pid today fmt r st i _; rfl
  | succ fuel ih =>
    intro mid pid today fmt r st i hi
    unfold reachHeap at hi
    simp only [List.mem_cons, not_or] at hi
    obtain ⟨hir, hirest⟩ := hi
    unfold processTaskHeap
    cases hget : st.get? r with
    | none => rfl
    | some o =>
      dsimp only
      have hset : (st.set r (processObjFields mid pid today fmt o)).get? i = st.get? i :=
        List.get?_set_ne _ _ (fun h => hir (h ▸ rfl))
      have hcr1 : ∀ j2, childRefs (st.set r (processObjFields mid pid today fmt o)) j2 =
          childRefs st j2 :=
        fun j2 => set_childRefs st r o _ hget (processObjFields_subtasks mid pid today fmt o) j2
      cases hsub : (processObjFields mid pid today fmt o).subtasks with
      | none => exact hset
      | some osub =>
        cases osub with
        | none => exact hset
        | some rs =>
          have hrs : childRefs st r = rs := by
            unfold childRefs
            rw [hget]
            dsimp only
            rw [← processObjFields_subtasks mid pid today fmt o, hsub]
          have hmem : ∀ x ∈ rs, i ∉ reachHeap fuel x st := by
            intro x hx hreach
            exact hirest (List.mem_flatMap.mpr ⟨x, by rw [hrs]; exact hx, hreach⟩)
          have hfold : ∀ (l : List Nat) (st2 : Store),
              (∀ j2, childRefs st2 j2 = childRefs st j2) →
              (∀ x ∈ l, i ∉ reachHeap fuel x st) →
              (l.foldl (fun acc r2 => processTaskHeap mid pid today fmt fuel r2 acc) st2).get? i =
                st2.get? i := by
            intro l
            induction l with
            | nil => intro st2 _ _; rfl
            | cons x xs ihl =>
              intro st2 hcr hnm
              simp only [List.foldl_cons]
              have hstep : (processTaskHeap mid pid today fmt fuel x st2).get? i = st2.get? i := by
                refine ih mid pid today fmt x st2 i ?_
                rw [reachHeap_congr fuel x st st2 hcr]
                exact hnm x (List.mem_cons_self x xs)
              have hcr2 : ∀ j2, childRefs (processTaskHeap mid pid today fmt fuel x st2) j2 =
                  childRefs st j2 := by
                intro j2
                rw [processTaskHeap_childRefs fuel mid pid today fmt x st2 j2]
                exact hcr j2
              rw [ihl _ hcr2 (fun y hy => hnm y (List.mem_cons_of_mem x hy)), hstep]
          rw [hfold rs _ hcr1 hmem, hset]

/-- Counterexample to C9 as stated: `process_task` does not leave the
in-memory structure it was given unmodified.  In the store model the dict
object at reference 0 is updated in place (the `task[...] = ...` statements
of src/utils/generate_tasks.py lines 172-186 write into the given dict): the
store after the call differs from the store before it. -/
theorem C9_normalizer_mutates_input_counterexample :
    processTaskHeap 1 none 0 (fun _ => "") 1 0
        [⟨some (some "t"), some (some "d"), none, none, none, none, none⟩] =
      [⟨some (some "t"), some (some "d"), some none, some (some "Medium"),
        some (some 1), none, none⟩] ∧
    processTaskHeap 1 none 0 (fun _ => "") 1 0
        [⟨some (some "t"), some (some "d"), none, none, none, none, none⟩] ≠
      [⟨some (some "t"), some (some "d"), none, none, none, none, none⟩] :=
  ⟨rfl, by decide⟩

/-- C9 (amended): the normalizer updates the task dicts it was given in
place (see the counterexample), and that is its only effect: it mutates no
global state — every store entry not reachable from the processed root
through `subtasks` references is exactly as before the call. -/
theorem C9_normalizer_touches_only_reachable_objects (mid : Int) (pid : Option Int)
    (today : Nat) (fmt : Nat → String) (fuel r : Nat) (st : Store) (i : Nat)
    (hout : i ∉ reachHeap fuel r st) :
    (processTaskHeap mid pid today fmt fuel r st).get? i = st.get? i :=
  processTaskHeap_frame fuel mid pid today fmt r st i hout

/-- Witness for the amended C9: processing the object at reference 0 leaves
the unrelated object at reference 1 untouched. -/
theorem C9_normalizer_touches_only_reachable_objects_witness :
    (processTaskHeap 1 none 0 (fun _ => "") 1 0
        [⟨some (some "t"), some (some "d"), none, none, none, none, none⟩,
         ⟨some (some "u"), some (some "e"), none, none, none, none, none⟩]).get? 1 =
      ([⟨some (some "t"), some (some "d"), none, none, none, none, none⟩,
        ⟨some (some "u"), some (some "e"), none, none, none, none, none⟩] : Store).get? 1 :=
  C9_normalizer_touches_only_reachable_objects 1 none 0 (fun _ => "") 1 0
    [⟨some (some "t"), some (some "d"), none, none, none, none, none⟩,
     ⟨some (some "u"), some (some "e"), none, none, none, none, none⟩] 1 (by decide)

end TaskBot
